import Mathlib

/-!
Shallow embedding of the TradingPro core (src/app.py, class TradingPlatform):
symbol normalization, the timeframe table, the indicator engine (RSI, SMA,
Bollinger Bands) and chart-payload assembly.  Prices are modelled as rationals
(exact field arithmetic); the square root in the Bollinger computation is the
real square root.  Python list slices `l[a:b]` are modelled by `pySlice`,
`np.mean` by `npMean` (sum divided by length).
-/

/-- Python slice `l[a:b]` for non-negative bounds: drop `a` from the first
`b` elements. -/
def pySlice {α : Type} (l : List α) (a b : ℕ) : List α := (l.take b).drop a

/-- Arithmetic mean of a list of rationals, `np.mean`: sum divided by length
(0 for the empty list, where numpy would give NaN). -/
def npMean (l : List ℚ) : ℚ := l.sum / l.length

/-- Does `sub` begin the list `l`?  Character-by-character comparison. -/
def beginsWith : List Char → List Char → Bool
  | [], _ => true
  | _ :: _, [] => false
  | a :: s, b :: t => a == b && beginsWith s t

/-- Python's substring test `sub in l`: `sub` begins some suffix of `l`. -/
def hasSub (sub : List Char) : List Char → Bool
  | [] => sub.isEmpty
  | c :: t => beginsWith sub (c :: t) || hasSub sub t

/-- The characters of the literal ".NS". -/
def NS : List Char := ['.', 'N', 'S']

/-- The characters of the literal ".BO". -/
def BO : List Char := ['.', 'B', 'O']

/-- `indian_exchanges = ['.NS', '.BO']` from `format_symbol_for_yahoo`. -/
def indian_exchanges : List (List Char) := [NS, BO]

/-- `common_us_symbols` allow-list from `format_symbol_for_yahoo`. -/
def common_us_symbols : List (List Char) :=
  [['A', 'A', 'P', 'L'], ['G', 'O', 'O', 'G', 'L'], ['M', 'S', 'F', 'T'],
   ['T', 'S', 'L', 'A'], ['A', 'M', 'Z', 'N'], ['N', 'V', 'D', 'A'],
   ['M', 'E', 'T', 'A'], ['S', 'P', 'Y']]

/-- `TradingPlatform.format_symbol_for_yahoo`: return the symbol unchanged if
it contains ".NS" or ".BO"; unchanged if its upper-casing is in the fixed
US allow-list; with ".NS" appended if it is at most 10 characters and has no
dot; unchanged otherwise. -/
def format_symbol_for_yahoo (symbol : List Char) : List Char :=
  if indian_exchanges.any (fun e => hasSub e symbol) then symbol
  else if symbol.map Char.toUpper ∈ common_us_symbols then symbol
  else if symbol.length ≤ 10 ∧ symbol.contains '.' = false then symbol ++ NS
  else symbol

/-- The `interval_map` table of `TradingPlatform.get_timeframe_period`:
timeframe token to (Yahoo interval, lookback period). -/
def interval_map : List (String × String × String) :=
  [("1m", "1m", "1d"), ("5m", "5m", "5d"), ("15m", "15m", "5d"),
   ("1h", "1h", "1mo"), ("4h", "1h", "3mo"), ("1d", "1d", "1y"),
   ("2d", "1d", "2y"), ("3d", "1d", "2y"), ("1w", "1wk", "2y"),
   ("2w", "1wk", "5y"), ("3w", "1wk", "5y"), ("1M", "1mo", "5y"),
   ("2M", "1mo", "10y"), ("3M", "1mo", "10y"), ("6M", "1mo", "max"),
   ("1Y", "1mo", "max")]

/-- `TradingPlatform.get_timeframe_period`: table lookup with default
`("1d", "1y")` for unrecognized tokens. -/
def get_timeframe_period (timeframe : String) : String × String :=
  (interval_map.lookup timeframe).getD ("1d", "1y")

/-- `np.diff(prices)`: successive differences, `deltas[k] = prices[k+1] -
prices[k]`, one element shorter than the input. -/
def deltasOf (prices : List ℚ) : List ℚ :=
  List.zipWith (fun a b => b - a) prices prices.tail

/-- `np.where(deltas > 0, deltas, 0)` from `calculate_rsi`. -/
def gainsOf (prices : List ℚ) : List ℚ :=
  (deltasOf prices).map fun d => if 0 < d then d else 0

/-- `np.where(deltas < 0, -deltas, 0)` from `calculate_rsi`. -/
def lossesOf (prices : List ℚ) : List ℚ :=
  (deltasOf prices).map fun d => if d < 0 then -d else 0

/-- `TradingPlatform.calculate_rsi`: all 50 for short inputs; 50 for indices
below `period`; otherwise rolling means of the gains and losses over the
`period` deltas before index `i` decide the value. -/
def calculate_rsi (prices : List ℚ) (period : ℕ) : List ℚ :=
  if prices.length < period + 1 then List.replicate prices.length 50
  else
    (List.range prices.length).map fun i =>
      if i < period then 50
      else
        let avg_gain := npMean (pySlice (gainsOf prices) (i - period) i)
        let avg_loss := npMean (pySlice (lossesOf prices) (i - period) i)
        if avg_loss = 0 then 100
        else 100 - 100 / (1 + avg_gain / avg_loss)

/-- `TradingPlatform.calculate_sma`: the raw value during warm-up, otherwise
the sum of the trailing `period`-window divided by `period`. -/
def calculate_sma (values : List ℚ) (period : ℕ) : List ℚ :=
  (List.range values.length).map fun i =>
    if i < period - 1 then values.getD i 0
    else (pySlice values (i + 1 - period) (i + 1)).sum / period

/-- `TradingPlatform.calculate_bollinger_bands`: fixed ±10 offsets during
warm-up; otherwise the SMA plus/minus `multiplier` times the square root of
the population variance of the trailing window. -/
noncomputable def calculate_bollinger_bands (values : List ℚ) (period : ℕ)
    (multiplier : ℝ) : List ℝ × List ℝ :=
  let sma := calculate_sma values period
  ((List.range values.length).map fun i =>
      if i < period - 1 then (values.getD i 0 : ℝ) + 10
      else
        let slice_values := pySlice values (i + 1 - period) (i + 1)
        let mean := sma.getD i 0
        let variance : ℚ := (slice_values.map fun x => (x - mean) ^ 2).sum / period
        (mean : ℝ) + multiplier * Real.sqrt (variance : ℝ),
   (List.range values.length).map fun i =>
      if i < period - 1 then (values.getD i 0 : ℝ) - 10
      else
        let slice_values := pySlice values (i + 1 - period) (i + 1)
        let mean := sma.getD i 0
        let variance : ℚ := (slice_values.map fun x => (x - mean) ^ 2).sum / period
        (mean : ℝ) - multiplier * Real.sqrt (variance : ℝ))

/-- One OHLCV bar as `fetch_chart_data` builds it from a provider row. -/
structure PriceBar where
  timestamp : ℤ
  openPrice : ℚ
  highPrice : ℚ
  lowPrice : ℚ
  closePrice : ℚ
  volume : ℤ

/-- One RSI overlay point of the chart payload. -/
structure IndicatorPoint where
  timestamp : ℤ
  value : ℚ
  ma : ℚ
  upperBB : ℝ
  lowerBB : ℝ

/-- The chart payload: candles plus the index-aligned RSI overlay. -/
structure ChartPayload where
  candles : List PriceBar
  rsi : List IndicatorPoint

/-- A failure raised by the external market-data collaborator. -/
inductive ProviderError where
  | failure : String → ProviderError

/-- Default bar used as the `getD` fallback (never read in bounds). -/
def defaultBar : PriceBar := ⟨0, 0, 0, 0, 0, 0⟩

/-- Default overlay point used as the `getD` fallback (never read in bounds). -/
noncomputable def defaultPoint : IndicatorPoint := ⟨0, 0, 0, 0, 0⟩

/-- The payload-assembly part of `TradingPlatform.fetch_chart_data` once the
provider returned the bar list: closes, RSI(14), SMA(RSI, 9),
BollingerBands(RSI, 20, 2), zipped index-wise with the candles. -/
noncomputable def chart_payload (bars : List PriceBar) : ChartPayload :=
  let candles := bars
  let close_prices := candles.map PriceBar.closePrice
  let rsi_values := calculate_rsi close_prices 14
  let rsi_ma := calculate_sma rsi_values 9
  let bb := calculate_bollinger_bands rsi_values 20 2
  let rsi_data := (List.range candles.length).map fun i =>
    IndicatorPoint.mk (candles.getD i defaultBar).timestamp
      (rsi_values.getD i 0) (rsi_ma.getD i 0) (bb.1.getD i 0) (bb.2.getD i 0)
  ⟨candles, rsi_data⟩

/-- `TradingPlatform.fetch_chart_data` around the collaborator call: an
exception is caught and becomes `none`; an empty bar list becomes `none`;
otherwise the assembled payload. -/
noncomputable def fetch_chart_data
    (result : Except ProviderError (List PriceBar)) : Option ChartPayload :=
  match result with
  | Except.error _ => none
  | Except.ok bars => if bars.isEmpty then none else some (chart_payload bars)

/-- Spec-side SMA steady-state value: the arithmetic mean of the window
`values[i-period+1 .. i]`, elements addressed by index. -/
def sma_spec (values : List ℚ) (period i : ℕ) : ℚ :=
  ((List.range period).map fun j => values.getD (i + 1 - period + j) 0).sum / period

/-- Spec-side delta `delta[k] = prices[k+1] - prices[k]`. -/
def delta_spec (prices : List ℚ) (k : ℕ) : ℚ :=
  prices.getD (k + 1) 0 - prices.getD k 0

/-- Spec-side gain `gain[k] = max(delta[k], 0)`. -/
def gain_spec (prices : List ℚ) (k : ℕ) : ℚ := max (delta_spec prices k) 0

/-- Spec-side loss `loss[k] = max(-delta[k], 0)`. -/
def loss_spec (prices : List ℚ) (k : ℕ) : ℚ := max (-delta_spec prices k) 0

/-- Spec-side average gain at output index `i`: the mean of the gains over
delta indices `i-period .. i-1`. -/
def avg_gain_spec (prices : List ℚ) (period i : ℕ) : ℚ :=
  ((List.range period).map fun j => gain_spec prices (i - period + j)).sum / period

/-- Spec-side average loss at output index `i`: the mean of the losses over
delta indices `i-period .. i-1`. -/
def avg_loss_spec (prices : List ℚ) (period i : ℕ) : ℚ :=
  ((List.range period).map fun j => loss_spec prices (i - period + j)).sum / period

/-- Spec-side RSI steady-state value: 100 when the average loss vanishes,
otherwise `100 - 100/(1 + avgGain/avgLoss)`. -/
def rsi_spec (prices : List ℚ) (period i : ℕ) : ℚ :=
  if avg_loss_spec prices period i = 0 then 100
  else 100 - 100 / (1 + avg_gain_spec prices period i / avg_loss_spec prices period i)

/-- Spec-side population variance of the trailing window at index `i`:
squared deviations from `SMA(values, period)[i]`, divided by `period`. -/
def variance_spec (values : List ℚ) (period i : ℕ) : ℚ :=
  ((List.range period).map fun j =>
    (values.getD (i + 1 - period + j) 0 - sma_spec values period i) ^ 2).sum
    / period

/-- An element of a mapped range, read with `getD`, is the function value. -/
lemma getD_map_range {β : Type} (f : ℕ → β) (d : β) {n i : ℕ} (h : i < n) :
    ((List.range n).map f).getD i d = f i := by
  rw [List.getD_eq_getElem _ _ (by simpa using h)]
  simp

/-- Length of a Python slice. -/
lemma length_pySlice {α : Type} (l : List α) (a b : ℕ) :
    (pySlice l a b).length = min b l.length - a := by
  simp [pySlice]

/-- A slice `l[a:a+p]` is `p` elements taken after dropping `a`. -/
lemma pySlice_eq_drop_take {α : Type} (l : List α) (a p : ℕ) :
    pySlice l a (a + p) = (l.drop a).take p := by
  simp [pySlice, List.drop_take]

/-- Sum of a mapped window, element by element. -/
lemma map_sum_take_drop {β : Type} [AddCommMonoid β] (f : ℚ → β) (l : List ℚ)
    (a : ℕ) : ∀ p : ℕ, a + p ≤ l.length →
    (((l.drop a).take p).map f).sum
      = ((List.range p).map fun j => f (l.getD (a + j) 0)).sum := by
  intro p
  induction p with
  | zero => intro _; simp
  | succ p ih =>
    intro h
    rw [List.take_succ, List.map_append, List.sum_append, List.range_succ,
      List.map_append, List.sum_append, ih (by omega)]
    have hap : a + p < l.length := by omega
    rw [List.getElem?_drop, List.getElem?_eq_getElem hap]
    simp [List.getElem?_eq_getElem hap]

/-- Sum of a mapped Python slice, element by element. -/
lemma pySlice_map_sum {β : Type} [AddCommMonoid β] (f : ℚ → β) (l : List ℚ)
    (a b : ℕ) (hab : a ≤ b) (hb : b ≤ l.length) :
    ((pySlice l a b).map f).sum
      = ((List.range (b - a)).map fun j => f (l.getD (a + j) 0)).sum := by
  obtain ⟨p, rfl⟩ : ∃ p, b = a + p := ⟨b - a, by omega⟩
  have hpa : a + p - a = p := by omega
  rw [hpa, pySlice_eq_drop_take]
  exact map_sum_take_drop f l a p hb

/-- Sum of a Python slice, element by element. -/
lemma pySlice_sum (l : List ℚ) (a b : ℕ) (hab : a ≤ b) (hb : b ≤ l.length) :
    (pySlice l a b).sum
      = ((List.range (b - a)).map fun j => l.getD (a + j) 0).sum := by
  have h := pySlice_map_sum id l a b hab hb
  simpa using h

/-- Membership in a Python slice implies membership in the list. -/
lemma mem_of_mem_pySlice {α : Type} {x : α} {l : List α} {a b : ℕ}
    (h : x ∈ pySlice l a b) : x ∈ l :=
  List.mem_of_mem_take (List.mem_of_mem_drop h)

/-- Length of the delta sequence. -/
lemma length_deltasOf (prices : List ℚ) :
    (deltasOf prices).length = prices.length - 1 := by
  simp [deltasOf]

/-- A delta read in bounds is the successive difference of the prices. -/
lemma getD_deltasOf (prices : List ℚ) (k : ℕ) (h : k + 1 < prices.length) :
    (deltasOf prices).getD k 0 = delta_spec prices k := by
  have hk : k < (deltasOf prices).length := by rw [length_deltasOf]; omega
  rw [List.getD_eq_getElem _ _ hk]
  unfold deltasOf delta_spec
  rw [List.getElem_zipWith, List.getElem_tail,
    List.getD_eq_getElem prices 0 h, List.getD_eq_getElem prices 0 (by omega)]

/-- Length of the gain sequence. -/
lemma length_gainsOf (prices : List ℚ) :
    (gainsOf prices).length = prices.length - 1 := by
  simp [gainsOf, length_deltasOf]

/-- Length of the loss sequence. -/
lemma length_lossesOf (prices : List ℚ) :
    (lossesOf prices).length = prices.length - 1 := by
  simp [lossesOf, length_deltasOf]

/-- A gain read in bounds is `max(delta, 0)`. -/
lemma getD_gainsOf (prices : List ℚ) (k : ℕ) (h : k + 1 < prices.length) :
    (gainsOf prices).getD k 0 = gain_spec prices k := by
  have hk : k < (deltasOf prices).length := by rw [length_deltasOf]; omega
  have hk2 : k < (gainsOf prices).length := by rw [length_gainsOf]; omega
  rw [List.getD_eq_getElem _ _ hk2]
  unfold gainsOf
  rw [List.getElem_map]
  have hd : (deltasOf prices)[k] = delta_spec prices k := by
    rw [← List.getD_eq_getElem (deltasOf prices) 0 hk]
    exact getD_deltasOf prices k h
  rw [hd, gain_spec]
  rcases le_or_lt (delta_spec prices k) 0 with h0 | h0
  · rw [if_neg (not_lt.mpr h0), max_eq_right h0]
  · rw [if_pos h0, max_eq_left h0.le]

/-- A loss read in bounds is `max(-delta, 0)`. -/
lemma getD_lossesOf (prices : List ℚ) (k : ℕ) (h : k + 1 < prices.length) :
    (lossesOf prices).getD k 0 = loss_spec prices k := by
  have hk : k < (deltasOf prices).length := by rw [length_deltasOf]; omega
  have hk2 : k < (lossesOf prices).length := by rw [length_lossesOf]; omega
  rw [List.getD_eq_getElem _ _ hk2]
  unfold lossesOf
  rw [List.getElem_map]
  have hd : (deltasOf prices)[k] = delta_spec prices k := by
    rw [← List.getD_eq_getElem (deltasOf prices) 0 hk]
    exact getD_deltasOf prices k h
  rw [hd, loss_spec]
  rcases le_or_lt 0 (delta_spec prices k) with h0 | h0
  · rw [if_neg (not_lt.mpr h0), max_eq_right (neg_nonpos.mpr h0)]
  · rw [if_pos h0, max_eq_left (neg_nonneg.mpr h0.le)]

/-- Length of the RSI output equals the input length. -/
lemma length_calculate_rsi (prices : List ℚ) (period : ℕ) :
    (calculate_rsi prices period).length = prices.length := by
  unfold calculate_rsi
  split_ifs <;> simp

/-- Length of the SMA output equals the input length. -/
lemma length_calculate_sma (values : List ℚ) (period : ℕ) :
    (calculate_sma values period).length = values.length := by
  simp [calculate_sma]

/-- During warm-up the SMA emits the raw input value. -/
lemma sma_getD_warmup (values : List ℚ) (period i : ℕ) (h1 : i < period - 1)
    (h2 : i < values.length) :
    (calculate_sma values period).getD i 0 = values.getD i 0 := by
  unfold calculate_sma
  rw [getD_map_range _ _ h2, if_pos h1]

/-- At steady state the SMA emits the trailing-window mean. -/
lemma sma_getD_steady (values : List ℚ) (period i : ℕ) (h1 : 1 ≤ period)
    (h2 : period - 1 ≤ i) (h3 : i < values.length) :
    (calculate_sma values period).getD i 0 = sma_spec values period i := by
  unfold calculate_sma
  rw [getD_map_range _ _ h3, if_neg (by omega)]
  have hba : (i + 1) - (i + 1 - period) = period := by omega
  rw [pySlice_sum values (i + 1 - period) (i + 1) (by omega) (by omega), hba,
    sma_spec]

/-- The average gain the code computes at a steady-state index is the
spec's rolling mean of gains. -/
lemma npMean_gains_eq_spec (prices : List ℚ) (period i : ℕ)
    (h2 : period ≤ i) (h3 : i < prices.length) :
    npMean (pySlice (gainsOf prices) (i - period) i)
      = avg_gain_spec prices period i := by
  have hlen : (gainsOf prices).length = prices.length - 1 := length_gainsOf prices
  have hle : i ≤ (gainsOf prices).length := by omega
  have hslen : (pySlice (gainsOf prices) (i - period) i).length = period := by
    rw [length_pySlice]; omega
  have hba : i - (i - period) = period := by omega
  rw [npMean, hslen,
    pySlice_sum (gainsOf prices) (i - period) i (by omega) hle, hba]
  rw [avg_gain_spec]
  congr 1
  refine congrArg List.sum (List.map_congr_left fun j hj => ?_)
  have hjp : j < period := List.mem_range.mp hj
  exact getD_gainsOf prices (i - period + j) (by omega)

/-- The average loss the code computes at a steady-state index is the
spec's rolling mean of losses. -/
lemma npMean_losses_eq_spec (prices : List ℚ) (period i : ℕ)
    (h2 : period ≤ i) (h3 : i < prices.length) :
    npMean (pySlice (lossesOf prices) (i - period) i)
      = avg_loss_spec prices period i := by
  have hlen : (lossesOf prices).length = prices.length - 1 := length_lossesOf prices
  have hle : i ≤ (lossesOf prices).length := by omega
  have hslen : (pySlice (lossesOf prices) (i - period) i).length = period := by
    rw [length_pySlice]; omega
  have hba : i - (i - period) = period := by omega
  rw [npMean, hslen,
    pySlice_sum (lossesOf prices) (i - period) i (by omega) hle, hba]
  rw [avg_loss_spec]
  congr 1
  refine congrArg List.sum (List.map_congr_left fun j hj => ?_)
  have hjp : j < period := List.mem_range.mp hj
  exact getD_lossesOf prices (i - period + j) (by omega)

/-- During warm-up (short input) every RSI entry read in bounds is 50. -/
lemma rsi_getD_warmup (prices : List ℚ) (period i : ℕ) (h1 : i < period)
    (h2 : i < prices.length) :
    (calculate_rsi prices period).getD i 0 = 50 := by
  unfold calculate_rsi
  split_ifs with hs
  · rw [List.getD_eq_getElem _ _ (by simpa using h2), List.getElem_replicate]
  · rw [getD_map_range _ _ h2, if_pos h1]

/-- At a steady-state index the RSI entry is the spec's rolling-mean value. -/
lemma rsi_getD_steady (prices : List ℚ) (period i : ℕ) (h2 : period ≤ i)
    (h3 : i < prices.length) :
    (calculate_rsi prices period).getD i 0 = rsi_spec prices period i := by
  unfold calculate_rsi
  rw [if_neg (by omega), getD_map_range _ _ h3, if_neg (by omega)]
  simp only [npMean_gains_eq_spec prices period i h2 h3,
    npMean_losses_eq_spec prices period i h2 h3]
  rw [rsi_spec]

/-- Lengths of the two Bollinger bands equal the input length. -/
lemma length_calculate_bollinger_bands (values : List ℚ) (period : ℕ)
    (multiplier : ℝ) :
    (calculate_bollinger_bands values period multiplier).1.length = values.length ∧
    (calculate_bollinger_bands values period multiplier).2.length = values.length := by
  unfold calculate_bollinger_bands
  constructor <;> simp

/-- During warm-up the upper band is the raw value plus 10. -/
lemma bb_fst_warmup (values : List ℚ) (period : ℕ) (multiplier : ℝ) (i : ℕ)
    (h1 : i < period - 1) (h2 : i < values.length) :
    (calculate_bollinger_bands values period multiplier).1.getD i 0
      = (values.getD i 0 : ℝ) + 10 := by
  unfold calculate_bollinger_bands
  rw [getD_map_range _ _ h2, if_pos h1]

/-- During warm-up the lower band is the raw value minus 10. -/
lemma bb_snd_warmup (values : List ℚ) (period : ℕ) (multiplier : ℝ) (i : ℕ)
    (h1 : i < period - 1) (h2 : i < values.length) :
    (calculate_bollinger_bands values period multiplier).2.getD i 0
      = (values.getD i 0 : ℝ) - 10 := by
  unfold calculate_bollinger_bands
  rw [getD_map_range _ _ h2, if_pos h1]

/-- The variance the code computes at a steady-state index equals the spec's
population variance of the trailing window. -/
lemma code_variance_eq_spec (values : List ℚ) (period i : ℕ) (h1 : 1 ≤ period)
    (h2 : period - 1 ≤ i) (h3 : i < values.length) :
    ((pySlice values (i + 1 - period) (i + 1)).map fun x =>
        (x - (calculate_sma values period).getD i 0) ^ 2).sum / (period : ℚ)
      = variance_spec values period i := by
  have hba : (i + 1) - (i + 1 - period) = period := by omega
  rw [pySlice_map_sum _ values (i + 1 - period) (i + 1) (by omega) (by omega), hba]
  rw [variance_spec, sma_getD_steady values period i h1 h2 h3]

/-- At steady state the upper band is the SMA plus the multiplier times the
square root of the population variance. -/
lemma bb_fst_steady (values : List ℚ) (period : ℕ) (multiplier : ℝ) (i : ℕ)
    (h1 : 1 ≤ period) (h2 : period - 1 ≤ i) (h3 : i < values.length) :
    (calculate_bollinger_bands values period multiplier).1.getD i 0
      = (sma_spec values period i : ℝ)
        + multiplier * Real.sqrt ((variance_spec values period i : ℚ) : ℝ) := by
  unfold calculate_bollinger_bands
  rw [getD_map_range _ _ h3, if_neg (by omega)]
  simp only
  rw [code_variance_eq_spec values period i h1 h2 h3,
    sma_getD_steady values period i h1 h2 h3]

/-- At steady state the lower band is the SMA minus the multiplier times the
square root of the population variance. -/
lemma bb_snd_steady (values : List ℚ) (period : ℕ) (multiplier : ℝ) (i : ℕ)
    (h1 : 1 ≤ period) (h2 : period - 1 ≤ i) (h3 : i < values.length) :
    (calculate_bollinger_bands values period multiplier).2.getD i 0
      = (sma_spec values period i : ℝ)
        - multiplier * Real.sqrt ((variance_spec values period i : ℚ) : ℝ) := by
  unfold calculate_bollinger_bands
  rw [getD_map_range _ _ h3, if_neg (by omega)]
  simp only
  rw [code_variance_eq_spec values period i h1 h2 h3,
    sma_getD_steady values period i h1 h2 h3]

/-- Every gain is non-negative. -/
lemma gainsOf_nonneg (prices : List ℚ) : ∀ x ∈ gainsOf prices, 0 ≤ x := by
  intro x hx
  simp only [gainsOf, List.mem_map] at hx
  obtain ⟨d, _, rfl⟩ := hx
  split_ifs with h
  · exact h.le
  · exact le_refl 0

/-- Every loss is non-negative. -/
lemma lossesOf_nonneg (prices : List ℚ) : ∀ x ∈ lossesOf prices, 0 ≤ x := by
  intro x hx
  simp only [lossesOf, List.mem_map] at hx
  obtain ⟨d, _, rfl⟩ := hx
  split_ifs with h
  · linarith
  · exact le_refl 0

/-- The mean of a list of non-negative rationals is non-negative. -/
lemma npMean_nonneg (l : List ℚ) (h : ∀ x ∈ l, 0 ≤ x) : 0 ≤ npMean l :=
  div_nonneg (List.sum_nonneg h) (Nat.cast_nonneg _)

/-- Every entry the RSI loop can emit lies in [0, 100]. -/
lemma rsi_value_bounds (prices : List ℚ) (period i : ℕ) :
    0 ≤ (if i < period then (50 : ℚ)
      else
        let avg_gain := npMean (pySlice (gainsOf prices) (i - period) i)
        let avg_loss := npMean (pySlice (lossesOf prices) (i - period) i)
        if avg_loss = 0 then 100 else 100 - 100 / (1 + avg_gain / avg_loss)) ∧
    (if i < period then (50 : ℚ)
      else
        let avg_gain := npMean (pySlice (gainsOf prices) (i - period) i)
        let avg_loss := npMean (pySlice (lossesOf prices) (i - period) i)
        if avg_loss = 0 then 100 else 100 - 100 / (1 + avg_gain / avg_loss)) ≤ 100 := by
  split_ifs with h1
  · norm_num
  · simp only []
    split_ifs with h2
    · norm_num
    · have hg : 0 ≤ npMean (pySlice (gainsOf prices) (i - period) i) :=
        npMean_nonneg _ fun x hx => gainsOf_nonneg prices x (mem_of_mem_pySlice hx)
      have hl : 0 ≤ npMean (pySlice (lossesOf prices) (i - period) i) :=
        npMean_nonneg _ fun x hx => lossesOf_nonneg prices x (mem_of_mem_pySlice hx)
      have hlpos : 0 < npMean (pySlice (lossesOf prices) (i - period) i) :=
        lt_of_le_of_ne hl (Ne.symm h2)
      have hrs : 0 ≤ npMean (pySlice (gainsOf prices) (i - period) i)
          / npMean (pySlice (lossesOf prices) (i - period) i) := div_nonneg hg hl
      have hdenpos : (0 : ℚ) < 1 + npMean (pySlice (gainsOf prices) (i - period) i)
          / npMean (pySlice (lossesOf prices) (i - period) i) := by linarith
      have hfrac_pos : (0 : ℚ) < 100 / (1 + npMean (pySlice (gainsOf prices) (i - period) i)
          / npMean (pySlice (lossesOf prices) (i - period) i)) := by positivity
      have hfrac_le : 100 / (1 + npMean (pySlice (gainsOf prices) (i - period) i)
          / npMean (pySlice (lossesOf prices) (i - period) i)) ≤ 100 :=
        div_le_self (by norm_num) (by linarith)
      constructor <;> linarith

/-- The deltas of a constant price list are all zero. -/
lemma deltasOf_replicate (n : ℕ) (c : ℚ) :
    deltasOf (List.replicate (n + 1) c) = List.replicate n 0 := by
  unfold deltasOf
  rw [List.tail_replicate, List.zipWith_replicate]
  simp

/-- The gains of a constant price list are all zero. -/
lemma gainsOf_replicate (n : ℕ) (c : ℚ) :
    gainsOf (List.replicate (n + 1) c) = List.replicate n 0 := by
  unfold gainsOf
  rw [deltasOf_replicate, List.map_replicate]
  simp

/-- The losses of a constant price list are all zero. -/
lemma lossesOf_replicate (n : ℕ) (c : ℚ) :
    lossesOf (List.replicate (n + 1) c) = List.replicate n 0 := by
  unfold lossesOf
  rw [deltasOf_replicate, List.map_replicate]
  simp

/-- RSI of 15 identical closes with period 14: fourteen 50s then a single 100. -/
lemma rsi_replicate_fifteen (c : ℚ) :
    calculate_rsi (List.replicate 15 c) 14 = List.replicate 14 50 ++ [100] := by
  have havg : avg_loss_spec (List.replicate 15 c) 14 14 = 0 := by
    rw [avg_loss_spec]
    have hz : ∀ j ∈ List.range 14, loss_spec (List.replicate 15 c) (14 - 14 + j) = 0 := by
      intro j hj
      have hj14 : j < 14 := List.mem_range.mp hj
      rw [loss_spec, delta_spec]
      rw [List.getD_eq_getElem _ 0 (by simp only [List.length_replicate]; omega),
        List.getElem_replicate,
        List.getD_eq_getElem _ 0 (by simp only [List.length_replicate]; omega),
        List.getElem_replicate]
      simp
    rw [List.map_congr_left hz]
    simp
  apply List.ext_getElem
  · rw [length_calculate_rsi]; simp
  · intro i hi1 hi2
    have hi15 : i < 15 := by
      rw [length_calculate_rsi, List.length_replicate] at hi1; exact hi1
    have hlen : i < (calculate_rsi (List.replicate 15 c) 14).length := hi1
    rw [← List.getD_eq_getElem _ 0 hlen]
    by_cases h14 : i < 14
    · rw [rsi_getD_warmup _ _ _ h14 (by simpa using hi15)]
      rw [List.getElem_append_left (by simpa using h14), List.getElem_replicate]
    · have hieq : i = 14 := by omega
      subst hieq
      rw [rsi_getD_steady _ _ _ (le_refl 14) (by simp)]
      rw [List.getElem_append_right (by simp)]
      rw [rsi_spec, if_pos havg]
      simp

/-- A list begins with itself. -/
lemma beginsWith_self (l : List Char) : beginsWith l l = true := by
  induction l with
  | nil => rfl
  | cons a t ih => simp [beginsWith, ih]

/-- Appending `sub` to any list produces a list containing `sub`. -/
lemma hasSub_append_self (sub pre : List Char) :
    hasSub sub (pre ++ sub) = true := by
  induction pre with
  | nil =>
    cases sub with
    | nil => rfl
    | cons c t =>
      simp only [List.nil_append, hasSub]
      rw [beginsWith_self]
      simp
  | cons p pre ih =>
    simp only [List.cons_append, hasSub, List.append_eq, ih]
    simp

/-- A symbol containing ".NS" is returned unchanged. -/
lemma format_of_hasNS (s : List Char) (h : hasSub NS s = true) :
    format_symbol_for_yahoo s = s := by
  unfold format_symbol_for_yahoo
  rw [if_pos (by simp [indian_exchanges, h])]

/-- The normalizer either keeps the symbol or appends ".NS". -/
lemma format_cases (s : List Char) :
    format_symbol_for_yahoo s = s ∨ format_symbol_for_yahoo s = s ++ NS := by
  unfold format_symbol_for_yahoo
  split_ifs <;> simp

/-- C1: RSI contract: every output index below `period` is exactly 50 (an
input shorter than `period + 1` gives a constant all-50 list of the same
length); every output index at or above `period` is computed from the plain
rolling means of gains and losses over the `period` deltas immediately
preceding it, emitting exactly 100 when the average loss is 0 and otherwise
`100 - 100/(1 + avgGain/avgLoss)`; consequently 15 identical closes produce
fourteen 50s followed by a single 100. -/
theorem rsi_contract (prices : List ℚ) (period : ℕ) (h1 : 1 ≤ period) :
    (prices.length < period + 1 →
      calculate_rsi prices period = List.replicate prices.length 50) ∧
    (∀ i, i < period → i < prices.length →
      (calculate_rsi prices period).getD i 0 = 50) ∧
    (∀ i, period ≤ i → i < prices.length →
      (calculate_rsi prices period).getD i 0 = rsi_spec prices period i) ∧
    (∀ c : ℚ, calculate_rsi (List.replicate 15 c) 14
      = List.replicate 14 50 ++ [100]) := by
  refine ⟨fun hs => ?_, fun i hip hil => rsi_getD_warmup prices period i hip hil,
    fun i hpi hil => rsi_getD_steady prices period i hpi hil,
    rsi_replicate_fifteen⟩
  unfold calculate_rsi
  rw [if_pos hs]

/-- Witness for C1 at a concrete 15-element price list and period 14. -/
theorem rsi_contract_witness :
    (calculate_rsi [10, 11, 9, 12, 8, 13, 7, 14, 6, 15, 5, 16, 4, 17, 3] 14).getD 14 0
      = rsi_spec [10, 11, 9, 12, 8, 13, 7, 14, 6, 15, 5, 16, 4, 17, 3] 14 14 :=
  (rsi_contract [10, 11, 9, 12, 8, 13, 7, 14, 6, 15, 5, 16, 4, 17, 3] 14
    (by norm_num)).2.2.1 14 (le_refl 14) (by decide)

/-- C2: for every input price list the RSI output has the input's length and
every output value lies in the closed interval [0, 100]. -/
theorem rsi_length_and_bounds (prices : List ℚ) (period : ℕ) (h1 : 1 ≤ period) :
    (calculate_rsi prices period).length = prices.length ∧
    ∀ x ∈ calculate_rsi prices period, 0 ≤ x ∧ x ≤ 100 := by
  refine ⟨length_calculate_rsi prices period, fun x hx => ?_⟩
  unfold calculate_rsi at hx
  split_ifs at hx with hs
  · rcases List.eq_of_mem_replicate hx with rfl
    norm_num
  · simp only [List.mem_map, List.mem_range] at hx
    obtain ⟨i, hi, rfl⟩ := hx
    exact rsi_value_bounds prices period i

/-- Witness for C2 at a concrete short price list and period 14. -/
theorem rsi_length_and_bounds_witness :
    (calculate_rsi [1, 2, 3] 14).length = 3 :=
  (rsi_length_and_bounds [1, 2, 3] 14 (by norm_num)).1

/-- C3: SMA contract: the output has the input's length, every index below
`period - 1` carries the raw input value, and every later index carries the
arithmetic mean of the trailing `period`-window ending at it. -/
theorem sma_contract (values : List ℚ) (period : ℕ) (h1 : 1 ≤ period) :
    (calculate_sma values period).length = values.length ∧
    (∀ i, i < period - 1 → i < values.length →
      (calculate_sma values period).getD i 0 = values.getD i 0) ∧
    (∀ i, period - 1 ≤ i → i < values.length →
      (calculate_sma values period).getD i 0 = sma_spec values period i) :=
  ⟨length_calculate_sma values period,
   fun i hw hl => sma_getD_warmup values period i hw hl,
   fun i hs hl => sma_getD_steady values period i h1 hs hl⟩

/-- Witness for C3 at a concrete list and period 2. -/
theorem sma_contract_witness :
    (calculate_sma [1, 2, 3, 4] 2).getD 2 0 = sma_spec [1, 2, 3, 4] 2 2 :=
  (sma_contract [1, 2, 3, 4] 2 (by norm_num)).2.2 2 (by norm_num) (by decide)

/-- C4: Bollinger contract: both bands have the input's length; during
warm-up the bands are the raw value ±10 (so their difference is 20); at
steady state they are the window mean ± `multiplier` times the square root
of the population variance (divisor `period`) of the trailing window. -/
theorem bollinger_contract (values : List ℚ) (period : ℕ) (multiplier : ℝ)
    (h1 : 1 ≤ period) :
    (calculate_bollinger_bands values period multiplier).1.length = values.length ∧
    (calculate_bollinger_bands values period multiplier).2.length = values.length ∧
    (∀ i, i < period - 1 → i < values.length →
      (calculate_bollinger_bands values period multiplier).1.getD i 0
          = (values.getD i 0 : ℝ) + 10 ∧
      (calculate_bollinger_bands values period multiplier).2.getD i 0
          = (values.getD i 0 : ℝ) - 10 ∧
      (calculate_bollinger_bands values period multiplier).1.getD i 0
          - (calculate_bollinger_bands values period multiplier).2.getD i 0 = 20) ∧
    (∀ i, period - 1 ≤ i → i < values.length →
      (calculate_bollinger_bands values period multiplier).1.getD i 0
          = (sma_spec values period i : ℝ)
            + multiplier * Real.sqrt ((variance_spec values period i : ℚ) : ℝ) ∧
      (calculate_bollinger_bands values period multiplier).2.getD i 0
          = (sma_spec values period i : ℝ)
            - multiplier * Real.sqrt ((variance_spec values period i : ℚ) : ℝ)) := by
  refine ⟨(length_calculate_bollinger_bands values period multiplier).1,
    (length_calculate_bollinger_bands values period multiplier).2,
    fun i hw hl => ⟨bb_fst_warmup values period multiplier i hw hl,
      bb_snd_warmup values period multiplier i hw hl, ?_⟩,
    fun i hs hl => ⟨bb_fst_steady values period multiplier i h1 hs hl,
      bb_snd_steady values period multiplier i h1 hs hl⟩⟩
  rw [bb_fst_warmup values period multiplier i hw hl,
    bb_snd_warmup values period multiplier i hw hl]
  ring

/-- Witness for C4 at a concrete two-element list, period 2, multiplier 2. -/
theorem bollinger_contract_witness :
    (calculate_bollinger_bands [1, 2] 2 2).1.getD 1 0
        = (sma_spec [1, 2] 2 1 : ℝ)
          + 2 * Real.sqrt ((variance_spec [1, 2] 2 1 : ℚ) : ℝ) ∧
    (calculate_bollinger_bands [1, 2] 2 2).2.getD 1 0
        = (sma_spec [1, 2] 2 1 : ℝ)
          - 2 * Real.sqrt ((variance_spec [1, 2] 2 1 : ℚ) : ℝ) :=
  (bollinger_contract [1, 2] 2 2 (by norm_num)).2.2.2 1 (by norm_num) (by decide)

/-- C7: symbol normalization is idempotent: a second application of the
normalizer returns its input unchanged. -/
theorem format_symbol_idempotent :
    ∀ s : List Char,
      format_symbol_for_yahoo (format_symbol_for_yahoo s)
        = format_symbol_for_yahoo s := by
  intro s
  rcases format_cases s with h | h
  · rw [h]
    exact h
  · rw [h]
    exact format_of_hasNS (s ++ NS) (hasSub_append_self NS s)

/-- C8: a raw symbol without ".NS"/".BO", whose upper-casing is not in the
allow-list, of length at most 10 and without a dot, gets ".NS" appended; in
particular "TCS" becomes "TCS.NS" while "AAPL" and "RELIANCE.NS" are kept,
and the empty string becomes ".NS". -/
theorem format_ns_suffix_rule :
    (∀ s : List Char, hasSub NS s = false → hasSub BO s = false →
      s.map Char.toUpper ∉ common_us_symbols → s.length ≤ 10 →
      s.contains '.' = false →
      format_symbol_for_yahoo s = s ++ NS) ∧
    format_symbol_for_yahoo ['T', 'C', 'S'] = ['T', 'C', 'S', '.', 'N', 'S'] ∧
    format_symbol_for_yahoo ['A', 'A', 'P', 'L'] = ['A', 'A', 'P', 'L'] ∧
    format_symbol_for_yahoo ['R', 'E', 'L', 'I', 'A', 'N', 'C', 'E', '.', 'N', 'S']
      = ['R', 'E', 'L', 'I', 'A', 'N', 'C', 'E', '.', 'N', 'S'] ∧
    format_symbol_for_yahoo [] = NS := by
  refine ⟨fun s hns hbo hus hlen hdot => ?_, by decide, by decide, by decide,
    by decide⟩
  unfold format_symbol_for_yahoo
  rw [if_neg (by simp [indian_exchanges, hns, hbo]), if_neg hus,
    if_pos ⟨hlen, hdot⟩]

/-- C9 counterexample: "2d" and "3d" resolve to the same provider interval
and also to the same lookback period, refuting the claimed asymmetry. -/
theorem timeframe_2d_3d_counterexample :
    (get_timeframe_period "2d").1 = (get_timeframe_period "3d").1 ∧
    (get_timeframe_period "2d").2 = (get_timeframe_period "3d").2 :=
  ⟨rfl, rfl⟩

/-- C9 (amended): "2d" and "3d" resolve to the identical pair
("1d", "2y"): same provider interval and same lookback period. -/
theorem timeframe_2d_3d_same_pair :
    get_timeframe_period "2d" = ("1d", "2y") ∧
    get_timeframe_period "3d" = ("1d", "2y") :=
  ⟨rfl, rfl⟩

/-- C10: the Bollinger bands never cross: at every index the lower band is
at most the upper band, for any period at least 1 and any non-negative
multiplier. -/
theorem bollinger_bands_ordered (values : List ℚ) (period : ℕ)
    (multiplier : ℝ) (h1 : 1 ≤ period) (h2 : 0 ≤ multiplier) :
    ∀ i, i < values.length →
      (calculate_bollinger_bands values period multiplier).2.getD i 0
        ≤ (calculate_bollinger_bands values period multiplier).1.getD i 0 := by
  intro i hi
  by_cases hw : i < period - 1
  · rw [bb_fst_warmup values period multiplier i hw hi,
      bb_snd_warmup values period multiplier i hw hi]
    linarith
  · rw [bb_fst_steady values period multiplier i h1 (by omega) hi,
      bb_snd_steady values period multiplier i h1 (by omega) hi]
    have hs := Real.sqrt_nonneg ((variance_spec values period i : ℚ) : ℝ)
    linarith [mul_nonneg h2 hs]

/-- Witness for C10 at a concrete one-element list. -/
theorem bollinger_bands_ordered_witness :
    (calculate_bollinger_bands [5] 1 2).2.getD 0 0
      ≤ (calculate_bollinger_bands [5] 1 2).1.getD 0 0 :=
  bollinger_bands_ordered [5] 1 2 (by norm_num) (by norm_num) 0 (by decide)

/-- C5: chart payload alignment: for every non-empty bar list the assembled
payload keeps the bars as candles, the RSI overlay has the same length, and
each overlay point carries the same-index candle's timestamp together with
the same-index values of RSI(closes, 14), SMA(rsi, 9) and
BollingerBands(rsi, 20, 2) computed over the RSI sequence. -/
theorem chart_alignment (bars : List PriceBar) (hb : bars ≠ []) :
    fetch_chart_data (Except.ok bars) = some (chart_payload bars) ∧
    (chart_payload bars).candles = bars ∧
    (chart_payload bars).rsi.length = (chart_payload bars).candles.length ∧
    (∀ i, i < (chart_payload bars).candles.length →
      ((chart_payload bars).rsi.getD i defaultPoint).timestamp
          = ((chart_payload bars).candles.getD i defaultBar).timestamp ∧
      ((chart_payload bars).rsi.getD i defaultPoint).value
          = (calculate_rsi (bars.map PriceBar.closePrice) 14).getD i 0 ∧
      ((chart_payload bars).rsi.getD i defaultPoint).ma
          = (calculate_sma (calculate_rsi (bars.map PriceBar.closePrice) 14) 9).getD i 0 ∧
      ((chart_payload bars).rsi.getD i defaultPoint).upperBB
          = (calculate_bollinger_bands
              (calculate_rsi (bars.map PriceBar.closePrice) 14) 20 2).1.getD i 0 ∧
      ((chart_payload bars).rsi.getD i defaultPoint).lowerBB
          = (calculate_bollinger_bands
              (calculate_rsi (bars.map PriceBar.closePrice) 14) 20 2).2.getD i 0) := by
  refine ⟨?_, rfl, ?_, ?_⟩
  · show (if bars.isEmpty = true then none else some (chart_payload bars))
        = some (chart_payload bars)
    rw [if_neg (by simpa [List.isEmpty_iff] using hb)]
  · unfold chart_payload
    simp
  · intro i hi
    have hi2 : i < bars.length := hi
    unfold chart_payload
    rw [getD_map_range _ _ hi2]
    exact ⟨rfl, rfl, rfl, rfl, rfl⟩

/-- Witness for C5 at a concrete one-bar list. -/
theorem chart_alignment_witness :
    fetch_chart_data (Except.ok [PriceBar.mk 0 100 101 99 100 1000])
      = some (chart_payload [PriceBar.mk 0 100 101 99 100 1000]) :=
  (chart_alignment [PriceBar.mk 0 100 101 99 100 1000] (by simp)).1

/-- C6: chart error handling: a collaborator exception never propagates (the
result is `none`), and an empty bar list also yields `none`, never an empty
payload. -/
theorem chart_empty_and_error_to_none :
    (∀ e : ProviderError, fetch_chart_data (Except.error e) = none) ∧
    fetch_chart_data (Except.ok []) = none := by
  constructor
  · intro e
    rfl
  · rfl
